import Mathlib

/-!
Verification of the onvif-proxy gateway core against its specification.

Strings manipulated by the Rust source (`str::find`, `str::contains`,
`str::replace`, slicing at found positions) are modelled as `List Char`.
Rust's byte positions and our character positions induce the same splits
at occurrences, and every pattern appearing in the source is ASCII, so
the models below are position-faithful.
-/

set_option maxHeartbeats 1000000
set_option maxRecDepth 100000

namespace OnvifProxy

/-- Index of the first occurrence of `pat` in `s` (model of Rust
`str::find` for a string pattern; also used for `char` patterns via a
one-character list). -/
def firstIdx (pat : List Char) : List Char → Option Nat
  | [] => if pat.isPrefixOf ([] : List Char) then some 0 else none
  | c :: t =>
    if pat.isPrefixOf (c :: t) then some 0
    else (firstIdx pat t).map (· + 1)

/-- Model of Rust `str::contains`. -/
def containsS (s pat : List Char) : Bool := (firstIdx pat s).isSome

theorem firstIdx_sound {pat s : List Char} {i : Nat}
    (h : firstIdx pat s = some i) : pat.isPrefixOf (s.drop i) := by
  induction s generalizing i with
  | nil =>
    unfold firstIdx at h
    by_cases hp : pat.isPrefixOf ([] : List Char)
    · simp [hp] at h; subst h; simpa using hp
    · simp [hp] at h
  | cons c t ih =>
    unfold firstIdx at h
    by_cases hp : pat.isPrefixOf (c :: t)
    · simp [hp] at h; subst h; simpa using hp
    · simp [hp] at h
      obtain ⟨j, hj, hji⟩ := h
      subst hji
      simpa using ih hj

theorem firstIdx_isSome_iff {pat s : List Char} :
    (firstIdx pat s).isSome = true ↔ pat <:+: s := by
  induction s with
  | nil =>
    unfold firstIdx
    by_cases hp : pat.isPrefixOf ([] : List Char)
    · simp [hp]
      exact List.prefix_nil.mp (List.isPrefixOf_iff_prefix.mp hp)
    · simp [hp]
      rintro rfl
      exact hp (by simp)
  | cons c t ih =>
    unfold firstIdx
    by_cases hp : pat.isPrefixOf (c :: t)
    · simp [hp]
      exact ((List.isPrefixOf_iff_prefix.mp hp).isInfix)
    · simp [hp, List.infix_cons_iff]
      rw [ih]
      constructor
      · exact fun h => Or.inr h
      · rintro (h | h)
        · exact absurd (List.isPrefixOf_iff_prefix.mpr h) hp
        · exact h

theorem containsS_iff {s pat : List Char} :
    containsS s pat = true ↔ pat <:+: s := firstIdx_isSome_iff

theorem containsS_false_iff {s pat : List Char} :
    containsS s pat = false ↔ ¬ pat <:+: s := by
  rw [← containsS_iff]
  cases containsS s pat <;> simp

theorem firstIdx_idx_le {pat s : List Char} {i : Nat}
    (h : firstIdx pat s = some i) : i ≤ s.length := by
  induction s generalizing i with
  | nil =>
    unfold firstIdx at h
    by_cases hp : pat.isPrefixOf ([] : List Char) <;> simp [hp] at h
    omega
  | cons c t ih =>
    unfold firstIdx at h
    by_cases hp : pat.isPrefixOf (c :: t)
    · simp [hp] at h; omega
    · simp [hp] at h
      obtain ⟨j, hj, hji⟩ := h
      have := ih hj
      simp
      omega

/-- A found occurrence fits inside the string. -/
theorem firstIdx_le_length {pat s : List Char} {i : Nat}
    (h : firstIdx pat s = some i) : i + pat.length ≤ s.length := by
  have hp := List.isPrefixOf_iff_prefix.mp (firstIdx_sound h)
  have hlen := hp.length_le
  have hdrop : (s.drop i).length = s.length - i := List.length_drop i s
  have hi : i ≤ s.length := firstIdx_idx_le h
  omega

/-! ## WS-Security header generator (src/onvif/auth.rs)

`WsSecurityAuth::generate_header` hashes with the `sha1` crate through the
incremental `update` interface and Base64-encodes with the `base64` crate's
STANDARD engine.  Both external dependencies are modelled concretely: a full
SHA-1 over byte lists (bytes as `Nat`, 32-bit words reduced mod 2^32) and
standard-alphabet Base64 with padding. -/

/-- Reduce to a 32-bit word. -/
def w32 (x : Nat) : Nat := x % 4294967296

/-- 32-bit left rotation (argument assumed < 2^32). -/
def rotl32 (n x : Nat) : Nat := w32 ((x <<< n) ||| (x >>> (32 - n)))

/-- Big-endian bytes of `x`, exactly `n` bytes. -/
def beBytes : Nat → Nat → List Nat
  | 0, _ => []
  | n + 1, x => beBytes n (x / 256) ++ [x % 256]

/-- Big-endian word from a list of bytes. -/
def beWord (bs : List Nat) : Nat := bs.foldl (fun a b => a * 256 + b) 0

/-- Split a list into chunks of size `n + 1` (fuel-driven structural
recursion; `fuel = l.length` always suffices since every step consumes at
least one element). -/
def chunksByAux (n : Nat) : Nat → List Nat → List (List Nat)
  | 0, _ => []
  | _, [] => []
  | fuel + 1, a :: t => ((a :: t).take (n + 1)) :: chunksByAux n fuel ((a :: t).drop (n + 1))

def chunksBy (n : Nat) (l : List Nat) : List (List Nat) :=
  chunksByAux n l.length l

/-- SHA-1 padding: append 0x80, zero bytes to 56 mod 64, then the 64-bit
big-endian bit length. -/
def sha1Pad (m : List Nat) : List Nat :=
  m ++ 128 :: List.replicate ((64 + 55 - (m.length % 64)) % 64) 0
    ++ beBytes 8 (8 * m.length)

/-- SHA-1 round function and constant for round `i`. -/
def sha1F (i b c d : Nat) : Nat :=
  if i < 20 then (b &&& c) ||| ((b ^^^ 4294967295) &&& d)
  else if i < 40 then b ^^^ c ^^^ d
  else if i < 60 then (b &&& c) ||| (b &&& d) ||| (c &&& d)
  else b ^^^ c ^^^ d

def sha1K (i : Nat) : Nat :=
  if i < 20 then 1518500249
  else if i < 40 then 1859775393
  else if i < 60 then 2400959708
  else 3395469782

/-- Expand the 16 block words to the 80-word message schedule. -/
def sha1Schedule (ws : List Nat) : List Nat :=
  (List.range 80).foldl
    (fun acc i =>
      if i < 16 then acc ++ [ws.getD i 0]
      else acc ++ [rotl32 1 (((acc.getD (i - 3) 0) ^^^ (acc.getD (i - 8) 0)) ^^^
        ((acc.getD (i - 14) 0) ^^^ (acc.getD (i - 16) 0)))])
    []

/-- One SHA-1 compression step. -/
def sha1Step (st : Nat × Nat × Nat × Nat × Nat) (iw : Nat × Nat) :
    Nat × Nat × Nat × Nat × Nat :=
  match st, iw with
  | (a, b, c, d, e), (i, w) =>
    let temp := w32 (rotl32 5 a + sha1F i b c d + e + sha1K i + w)
    (temp, a, rotl32 30 b, c, d)

/-- Process one 64-byte block. -/
def sha1Block (h : Nat × Nat × Nat × Nat × Nat) (block : List Nat) :
    Nat × Nat × Nat × Nat × Nat :=
  match h with
  | (h0, h1, h2, h3, h4) =>
    let ws := sha1Schedule ((chunksBy 3 block).map beWord)
    match (((List.range 80).zip ws).foldl sha1Step (h0, h1, h2, h3, h4)) with
    | (a, b, c, d, e) =>
      (w32 (h0 + a), w32 (h1 + b), w32 (h2 + c), w32 (h3 + d), w32 (h4 + e))

/-- SHA-1 of a byte list, as 20 bytes. -/
def sha1 (m : List Nat) : List Nat :=
  match (chunksBy 63 (sha1Pad m)).foldl sha1Block
      (1732584193, 4023233417, 2562383102, 271733878, 3285377520) with
  | (h0, h1, h2, h3, h4) =>
    beBytes 4 h0 ++ beBytes 4 h1 ++ beBytes 4 h2 ++ beBytes 4 h3 ++ beBytes 4 h4

/-- The standard Base64 alphabet. -/
def b64Alphabet : List Char :=
  ("ABCDEFGHIJKLMNOPQRSTUVWXYZabcdefghijklmnopqrstuvwxyz0123456789+/").toList

def b64Char (n : Nat) : Char := b64Alphabet.getD n 'A'

/-- Standard Base64 encoding with `=` padding (model of the `base64` crate's
`STANDARD` engine). -/
def base64Encode : List Nat → List Char
  | [] => []
  | [a] => [b64Char (a / 4), b64Char ((a % 4) * 16), '=', '=']
  | [a, b] => [b64Char (a / 4), b64Char ((a % 4) * 16 + b / 16),
      b64Char ((b % 16) * 4), '=']
  | a :: b :: c :: rest =>
    b64Char (a / 4) :: b64Char ((a % 4) * 16 + b / 16) ::
      b64Char ((b % 16) * 4 + c / 64) :: b64Char (c % 64) :: base64Encode rest

/-- Bytes of an ASCII string (`str::as_bytes`; every string fed to the hash
in `generate_header` is ASCII, where UTF-8 bytes and char codes agree). -/
def strBytes (s : String) : List Nat := s.toList.map Char.toNat

/-- The `sha1` crate's incremental hasher, modelled by the byte buffer
accumulated so far: `Sha1::new()`. -/
def sha1HasherNew : List Nat := []

/-- `Hasher::update` appends the new data to the buffered message. -/
def sha1HasherUpdate (st : List Nat) (data : List Nat) : List Nat := st ++ data

/-- `Hasher::finalize` hashes the buffered message. -/
def sha1HasherFinalize (st : List Nat) : List Nat := sha1 st

/-- The password digest computed inside `WsSecurityAuth::generate_header`
(src/onvif/auth.rs lines 25-30): three `update` calls - nonce bytes, created
bytes, password bytes - then `finalize`, then Base64. -/
def passwordDigest (nonceBytes : List Nat) (created password : String) :
    List Char :=
  base64Encode (sha1HasherFinalize
    (sha1HasherUpdate
      (sha1HasherUpdate (sha1HasherUpdate sha1HasherNew nonceBytes)
        (strBytes created))
      (strBytes password)))

/-- The digest formula as the spec states it:
`Base64(SHA1(nonceBytes ++ createdBytes ++ passwordBytes))`, one hash of the
separator-free concatenation in that order. -/
def specPasswordDigest (nonceBytes : List Nat) (created password : String) :
    List Char :=
  base64Encode (sha1 (nonceBytes ++ strBytes created ++ strBytes password))

/-- `WsSecurityAuth::generate_header` (src/onvif/auth.rs lines 18-43), with
the random nonce and the formatted clock reading passed in as parameters. -/
def generate_header (username password : String) (nonceBytes : List Nat)
    (created : String) : List Char :=
  let nonceBase64 := base64Encode nonceBytes
  let digest := passwordDigest nonceBytes created password
  ("<wsse:Security xmlns:wsse=\"http://docs.oasis-open.org/wss/2004/01/oasis-200401-wss-wssecurity-secext-1.0.xsd\" xmlns:wsu=\"http://docs.oasis-open.org/wss/2004/01/oasis-200401-wss-wssecurity-utility-1.0.xsd\">\n  <wsse:UsernameToken>\n    <wsse:Username>").toList
  ++ username.toList
  ++ ("</wsse:Username>\n    <wsse:Password Type=\"http://docs.oasis-open.org/wss/2004/01/oasis-200401-wss-username-token-profile-1.0#PasswordDigest\">").toList
  ++ digest
  ++ ("</wsse:Password>\n    <wsse:Nonce EncodingType=\"http://docs.oasis-open.org/wss/2004/01/oasis-200401-wss-soap-message-security-1.0#Base64Binary\">").toList
  ++ nonceBase64
  ++ ("</wsse:Nonce>\n    <wsu:Created>").toList
  ++ created.toList
  ++ ("</wsu:Created>\n  </wsse:UsernameToken>\n</wsse:Security>").toList

/-- Sanity check of the SHA-1 model against the standard test vector
SHA1("abc") = a9993e364706816aba3e25717850c26c9cd0d89d. -/
example : sha1 (strBytes "abc") =
    [169, 153, 62, 54, 71, 6, 129, 106, 186, 62, 37, 113, 120, 80, 194, 108,
     156, 208, 216, 157] := by decide

/-! ## Quirks translation engine (src/translator/reolink.rs, response.rs) -/

/-- Model of Rust `str::replace`: replace every non-overlapping occurrence
of `pat`, scanning left to right (fuel-driven; `fuel = s.length` suffices
because every step consumes at least one character when `pat` is
non-empty). -/
def replaceAllAux (pat rep : List Char) : Nat → List Char → List Char
  | 0, s => s
  | _, [] => []
  | fuel + 1, c :: t =>
    if pat.isPrefixOf (c :: t) then
      rep ++ replaceAllAux pat rep fuel ((c :: t).drop pat.length)
    else c :: replaceAllAux pat rep fuel t

def replaceAll (s pat rep : List Char) : List Char :=
  if pat = [] then s else replaceAllAux pat rep s.length s

/-- The inserted declaration text `format!(" xmlns:{}=\"{}\"", prefix, uri)`
of `ReolinkEventTranslator::add_namespace`. -/
def nsDecl (p uri : List Char) : List Char :=
  (" xmlns:").toList ++ p ++ ('=' :: '"' :: uri) ++ ['"']

/-- The literal `"<SOAP-ENV:Envelope"` searched for by `add_namespace`. -/
def envL : List Char := ("<SOAP-ENV:Envelope").toList

/-- `ReolinkEventTranslator::add_namespace` (src/translator/reolink.rs lines
133-148): insert the declaration just before the first `>` at or after the
first `<SOAP-ENV:Envelope`; fall back to the unchanged input if either find
fails. -/
def add_namespace (xml : List Char) (p uri : List Char) : List Char :=
  match firstIdx envL xml with
  | none => xml
  | some pos =>
    match firstIdx ['>'] (xml.drop pos) with
    | none => xml
    | some e =>
      xml.take (pos + e) ++ nsDecl p uri ++ xml.drop (pos + e)

/-- Whether the two finds of `add_namespace` both succeed (this is a
property of the document alone, independent of the namespace being
inserted). -/
def envFindsGt (xml : List Char) : Bool :=
  match firstIdx envL xml with
  | none => false
  | some pos => (firstIdx ['>'] (xml.drop pos)).isSome

/-- `ReolinkEventTranslator::fix_device_info_namespace` (reolink.rs 25-39). -/
def fix_device_info_namespace (xml : List Char) : List Char :=
  let fixed :=
    if !containsS xml ("xmlns:tds=").toList && containsS xml ("<tds:").toList
    then add_namespace xml ("tds").toList ("http://www.onvif.org/ver10/device/wsdl").toList
    else xml
  if !containsS fixed ("xmlns:tt=").toList && containsS fixed ("<tt:").toList
  then add_namespace fixed ("tt").toList ("http://www.onvif.org/ver10/schema").toList
  else fixed

/-- `ReolinkEventTranslator::normalize_media_profiles` (reolink.rs 41-55). -/
def normalize_media_profiles (xml : List Char) : List Char :=
  let fixed :=
    if !containsS xml ("xmlns:trt=").toList && containsS xml ("<trt:").toList
    then add_namespace xml ("trt").toList ("http://www.onvif.org/ver10/media/wsdl").toList
    else xml
  if !containsS fixed ("xmlns:tt=").toList && containsS fixed ("<tt:").toList
  then add_namespace fixed ("tt").toList ("http://www.onvif.org/ver10/schema").toList
  else fixed

/-- The `event_mappings` table of `translate_smart_events` (reolink.rs
61-84), in source order. -/
def smartEventMappings : List (List Char × List Char) := [
  (("PeopleDetect").toList, ("Motion").toList),
  (("PersonDetection").toList, ("Motion").toList),
  (("tns1:RuleEngine/MyRuleDetector/PeopleDetect").toList,
   ("tns1:RuleEngine/CellMotionDetector/Motion").toList),
  (("VehicleDetect").toList, ("Motion").toList),
  (("VehicleDetection").toList, ("Motion").toList),
  (("tns1:RuleEngine/MyRuleDetector/VehicleDetect").toList,
   ("tns1:RuleEngine/CellMotionDetector/Motion").toList),
  (("DogCatDetect").toList, ("Motion").toList),
  (("PetDetection").toList, ("Motion").toList),
  (("tns1:RuleEngine/MyRuleDetector/DogCatDetect").toList,
   ("tns1:RuleEngine/CellMotionDetector/Motion").toList),
  (("FaceDetect").toList, ("Motion").toList),
  (("FaceDetection").toList, ("Motion").toList),
  (("SmartDetection").toList, ("Motion").toList),
  (("AIDetection").toList, ("Motion").toList)]

/-- `ReolinkEventTranslator::translate_smart_events` (reolink.rs 57-107):
apply the mapping table in order with `str::replace`, then repair the
`tns1` namespace, then inject the `State` SimpleItem when a motion topic is
present without one. -/
def translate_smart_events (xml : List Char) : List Char :=
  let fixed := smartEventMappings.foldl (fun acc pr => replaceAll acc pr.1 pr.2) xml
  let fixed :=
    if !containsS fixed ("xmlns:tns1=").toList && containsS fixed ("tns1:").toList
    then add_namespace fixed ("tns1").toList ("http://www.onvif.org/ver10/topics").toList
    else fixed
  if containsS fixed ("Motion").toList && !containsS fixed ("State").toList then
    if containsS fixed ("<SimpleItem").toList
        && !containsS fixed ("Name=\"State\"").toList then
      replaceAll fixed ("</wsnt:Message>").toList
        ("<tt:SimpleItem Name=\"State\" Value=\"true\"/></tt:Data></tt:Message></wsnt:Message>").toList
    else fixed
  else fixed

/-- The `namespaces` table of `add_missing_namespaces` (reolink.rs 112-119),
in source order. -/
def nsTable : List (List Char × List Char) := [
  (("tds").toList, ("http://www.onvif.org/ver10/device/wsdl").toList),
  (("trt").toList, ("http://www.onvif.org/ver10/media/wsdl").toList),
  (("tev").toList, ("http://www.onvif.org/ver10/events/wsdl").toList),
  (("tt").toList, ("http://www.onvif.org/ver10/schema").toList),
  (("tns1").toList, ("http://www.onvif.org/ver10/topics").toList),
  (("wsnt").toList, ("http://docs.oasis-open.org/wsn/b-2").toList)]

/-- The pattern `format!("xmlns:{}=", prefix)`. -/
def xmlnsPat (p : List Char) : List Char := ("xmlns:").toList ++ p ++ ['=']

/-- The pattern `format!("<{}:", prefix)`. -/
def tagPat (p : List Char) : List Char := '<' :: p ++ [':']

/-- One iteration of the `for (prefix, uri) in namespaces` loop of
`add_missing_namespaces` (reolink.rs 121-128). -/
def nsStep (xml : List Char) (pr : List Char × List Char) : List Char :=
  if !containsS xml (xmlnsPat pr.1) && containsS xml (tagPat pr.1)
  then add_namespace xml pr.1 pr.2
  else xml

/-- `ReolinkEventTranslator::add_missing_namespaces` (reolink.rs 109-131). -/
def add_missing_namespaces (xml : List Char) : List Char :=
  nsTable.foldl nsStep xml

/-- One iteration of the quirk loop in
`ReolinkEventTranslator::translate_response` (reolink.rs 9-20): dispatch on
the quirk name; unknown names leave the string unchanged (warn only). -/
def quirkApply (xml : List Char) (q : String) : List Char :=
  match q with
  | "fix_device_info_namespace" => fix_device_info_namespace xml
  | "normalize_media_profiles" => normalize_media_profiles xml
  | "translate_smart_events" => translate_smart_events xml
  | "add_missing_namespaces" => add_missing_namespaces xml
  | _ => xml

/-- `ReolinkEventTranslator::translate_response` (reolink.rs 6-23): fold the
quirk list and wrap the result in `Ok`. -/
def translate_response (xml : List Char) (quirks : List String) :
    Except String (List Char) :=
  Except.ok (quirks.foldl quirkApply xml)

/-- `ResponseTranslator::translate` (src/translator/response.rs 7-15):
dispatch on the camera model; the catch-all arm returns the input unchanged
(warn only). -/
def translate (xml : List Char) (cameraModel : String) (quirks : List String) :
    Except String (List Char) :=
  if cameraModel = "reolink" then translate_response xml quirks
  else Except.ok xml

/-! ## SOAP envelope codec (src/onvif/soap.rs)

`SoapEnvelope::parse` drives a `quick_xml::Reader` over the document.  The
external library is modelled at its interface: a document is represented by
the event stream the reader produces for it.  `Start`/`Empty` events carry
the qualified name, the attribute list, and the raw tag text
(`BytesStart::as_ref`), `End` events the qualified name, `Text` events the
unescaped text; a malformed document yields an `errE` event at the point the
reader fails.  With `trim_text(true)`, pure-whitespace text between tags
produces no event.  quick-xml reports a self-closing `<Foo/>` as
`Event::Empty`, not `Event::Start`, and `BytesStart::name` is the qualified
name including any namespace prefix. -/

inductive XEvent where
  | start (qname : String) (attrs : List (String × String)) (raw : String)
  | empty (qname : String) (attrs : List (String × String)) (raw : String)
  | endE (qname : String)
  | text (s : String)
  | errE (msg : String)
deriving DecidableEq

structure WsSecurity where
  username : String
  password_digest : String
  nonce : String
  created : String
deriving DecidableEq

structure SoapHeader where
  security : Option WsSecurity
  raw_xml : String
deriving DecidableEq

structure SoapBody where
  action : String
  content : String
  raw_xml : String
deriving DecidableEq

structure SoapEnvelope where
  header : Option SoapHeader
  body : SoapBody
  namespaces : List (String × String)
deriving DecidableEq

/-- `QName::local_name`: the part after the first `:`, or the whole name
when there is no prefix. -/
def afterColon : List Char → List Char
  | [] => []
  | c :: t => if c = ':' then t else afterColon t

def localName (q : String) : String :=
  if q.toList.contains ':' then String.mk (afterColon q.toList) else q

/-- Rust `str::starts_with` on strings. -/
def startsWithS (s pre : String) : Bool := pre.toList.isPrefixOf s.toList

/-- `parse_body`'s attribute rendering: ` key="value"` appended for each
attribute, keys as written. -/
def attrsStr (attrs : List (String × String)) : String :=
  attrs.foldl (fun acc kv => acc ++ " " ++ kv.1 ++ "=\"" ++ kv.2 ++ "\"") ""

/-- Accumulated parse state of `SoapEnvelope::parse`'s main loop. -/
structure PSt where
  namespaces : List (String × String)
  header : Option SoapHeader
  body : Option SoapBody

/-- Control position: the top-level loop of `parse`, or inside the nested
loop of `parse_header` (depth, accumulated raw_xml) or of `parse_body`
(depth, action, content, raw_xml, capture_content flag). -/
inductive PMode where
  | top
  | hdr (depth : Nat) (acc : String)
  | bdy (depth : Nat) (action content raw : String) (capture : Bool)

def finalizeEnv (st : PSt) : Except String SoapEnvelope :=
  match st.body with
  | none => Except.error "SOAP Body not found"
  | some b => Except.ok ⟨st.header, b, st.namespaces⟩

/-- `SoapEnvelope::parse`, `parse_header` and `parse_body` (soap.rs 35-167)
as one event-consuming machine.  The nested reader loops of the source are
the `hdr`/`bdy` modes; `Eof` inside either nested loop makes it break with
its partial result, after which the outer loop also sees `Eof` and breaks -
here both happen at the end of the event list.  The top-level loop compares
`e.name()` (the qualified name) against the unprefixed literals `Envelope`,
`Header` and `Body`; the nested body loop uses `e.local_name()`.
`Event::Empty` matches no arm of any of the three loops and is skipped. -/
def runParse : PMode → PSt → List XEvent → Except String SoapEnvelope
  | .top, st, [] => finalizeEnv st
  | .hdr _ acc, st, [] => finalizeEnv { st with header := some ⟨none, acc⟩ }
  | .bdy _ act cont raw _, st, [] =>
      finalizeEnv { st with body := some ⟨act, cont, raw⟩ }
  | .top, st, ev :: rest =>
    match ev with
    | .start q attrs _ =>
      if q = "Envelope" then
        runParse .top
          { st with namespaces :=
              st.namespaces ++ attrs.filter (fun kv => startsWithS kv.1 "xmlns") }
          rest
      else if q = "Header" then runParse (.hdr 1 "") st rest
      else if q = "Body" then runParse (.bdy 1 "" "" "" false) st rest
      else runParse .top st rest
    | .errE m => Except.error ("XML parsing error: " ++ m)
    | _ => runParse .top st rest
  | .hdr d acc, st, ev :: rest =>
    match ev with
    | .start _ _ raw => runParse (.hdr (d + 1) (acc ++ "<" ++ raw ++ ">")) st rest
    | .endE q =>
      if d - 1 = 0 then runParse .top { st with header := some ⟨none, acc⟩ } rest
      else runParse (.hdr (d - 1) (acc ++ "</" ++ q ++ ">")) st rest
    | .text s => runParse (.hdr d (acc ++ s)) st rest
    | .errE m => Except.error ("Header parsing error: " ++ m)
    | _ => runParse (.hdr d acc) st rest
  | .bdy d act cont raw cap, st, ev :: rest =>
    match ev with
    | .start q attrs _ =>
      let tag := localName q
      let act' := if d + 1 = 2 then tag else act
      let cap' := if d + 1 = 2 then true else cap
      runParse (.bdy (d + 1) act' cont (raw ++ "<" ++ tag ++ attrsStr attrs ++ ">") cap')
        st rest
    | .endE q =>
      if d - 1 = 0 then
        runParse .top { st with body := some ⟨act, cont, raw⟩ } rest
      else
        runParse (.bdy (d - 1) act cont (raw ++ "</" ++ localName q ++ ">") cap) st rest
    | .text s =>
      runParse (.bdy d act (if cap then cont ++ s else cont) (raw ++ s) cap) st rest
    | .errE m => Except.error ("Body parsing error: " ++ m)
    | _ => runParse (.bdy d act cont raw cap) st rest

/-- `SoapEnvelope::parse` on (the event stream of) a document. -/
def parse (evts : List XEvent) : Except String SoapEnvelope :=
  runParse .top ⟨[], none, none⟩ evts

/-- Whether any element of the document (start or self-closing tag) has
local name `Body`, i.e. whether a `<Body>` element occurs at all. -/
def hasBodyElem (evts : List XEvent) : Bool :=
  evts.any (fun ev =>
    match ev with
    | .start q _ _ => localName q = "Body"
    | .empty q _ _ => localName q = "Body"
    | _ => false)

/-! ## Subscription & polling engine (src/onvif/events.rs)

Time is modelled as `Nat` (seconds, or an abstract instant for formatted
timestamps), the subscription table (`HashMap` under a lock) as a function
`String → Option Subscription`, and a subscription's `VecDeque` event cache
as a list with the head as front (oldest). -/

structure CachedEvent where
  event_xml : String
  received_at : Nat
deriving DecidableEq

structure Subscription where
  subscription_ref : String
  camera_id : String
  camera_subscription_url : String
  created_at : Nat
  expires_at : Nat
  event_cache : List CachedEvent
  last_poll : Nat
deriving DecidableEq

/-- The cache-size limit loop of `poll_camera_events_background` (events.rs
167-169): `while cache.len() > 100 { cache.pop_front(); }` (fuel-driven;
`fuel = c.length` suffices since every iteration removes one entry). -/
def trimCacheAux : Nat → List CachedEvent → List CachedEvent
  | 0, c => c
  | fuel + 1, c => if c.length > 100 then trimCacheAux fuel c.tail else c

def trimCache (c : List CachedEvent) : List CachedEvent :=
  trimCacheAux c.length c

/-- The cache append performed by the poller on a state change (events.rs
160-169): `push_back` the new event, then trim to the capacity of 100,
oldest first. -/
def cacheAppend (c : List CachedEvent) (e : CachedEvent) : List CachedEvent :=
  trimCache (c ++ [e])

/-- `EventsService::generate_motion_event` (events.rs 225-245), with the
formatted timestamp passed in. -/
def generate_motion_event (camera_id : String) (motion_active : Bool)
    (nowStr : String) : String :=
  "<wsnt:NotificationMessage>\n  <wsnt:Topic Dialect=\"http://www.onvif.org/ver10/tev/topicExpression/ConcreteSet\">tns1:RuleEngine/CellMotionDetector/Motion</wsnt:Topic>\n  <wsnt:Message>\n    <tt:Message UtcTime=\""
  ++ nowStr ++ "\">\n      <tt:Source>\n        <tt:SimpleItem Name=\"VideoSourceConfigurationToken\" Value=\""
  ++ camera_id ++ "\"/>\n        <tt:SimpleItem Name=\"VideoAnalyticsConfigurationToken\" Value=\""
  ++ camera_id ++ "\"/>\n        <tt:SimpleItem Name=\"Rule\" Value=\"MotionDetectorRule\"/>\n      </tt:Source>\n      <tt:Data>\n        <tt:SimpleItem Name=\"IsMotion\" Value=\""
  ++ (if motion_active then "true" else "false")
  ++ "\"/>\n      </tt:Data>\n    </tt:Message>\n  </wsnt:Message>\n</wsnt:NotificationMessage>"

/-- Mutable state of one background poller: the `last_motion_state`
local plus the parts of the subscription it writes. -/
structure PollerState where
  lastMotion : Option Bool
  cache : List CachedEvent
  lastPoll : Nat
deriving DecidableEq

/-- One iteration of the polling loop of
`EventsService::poll_camera_events_background` (events.rs 147-181).  `obs`
is the outcome of `query_motion_state` for this iteration (the network call,
external); `now` the clock reading.  On `Ok(motion)` with
`last_motion_state != Some(motion)` one motion event is appended (with
eviction) and the remembered state updated; on an equal state or on `Err`
the cache and remembered state are untouched.  `last_poll` is written every
iteration. -/
def pollStep (camera_id : String) (obs : Except String Bool) (now : Nat)
    (nowStr : String) (s : PollerState) : PollerState :=
  match obs with
  | Except.error _ => { s with lastPoll := now }
  | Except.ok motion =>
    if s.lastMotion ≠ some motion then
      { lastMotion := some motion
        cache := cacheAppend s.cache
          ⟨generate_motion_event camera_id motion nowStr, now⟩
        lastPoll := now }
    else { s with lastPoll := now }

/-- The expiry update of `EventsService::renew_subscription` (events.rs
270-272): `get_mut` on the table; when the reference is present set its
`expires_at` to now + 600, otherwise do nothing. -/
def renewUpdate (table : String → Option Subscription) (ref : String)
    (now : Nat) : String → Option Subscription :=
  fun k =>
    if k = ref then (table ref).map (fun s => { s with expires_at := now + 600 })
    else table k

/-- `EventsService::renew_subscription` (events.rs 247-275).  The forwarded
camera call is external; its outcome is the `cameraResp` parameter.  On a
transport error the `?` propagates before the table is touched; on success
the response is returned unchanged and the expiry updated. -/
def renew_subscription (table : String → Option Subscription)
    (cameraResp : Except String String) (ref : String) (now : Nat) :
    Except String String × (String → Option Subscription) :=
  match cameraResp with
  | Except.error e => (Except.error e, table)
  | Except.ok r => (Except.ok r, renewUpdate table ref now)

/-- `format!("<{}Address>", prefix)`. -/
def addrStartTag (p : List Char) : List Char := '<' :: (p ++ ("Address>").toList)

/-- `format!("</{}Address>", prefix)`. -/
def addrEndTag (p : List Char) : List Char :=
  '<' :: '/' :: (p ++ ("Address>").toList)

/-- One attempt of the prefix loop of
`EventsService::rewrite_subscription_ref` (events.rs 478-491): find
`<{prefix}Address>`, then `</{prefix}Address>` at or after it, and replace
what stands between them; `none` when either find fails (no `break` is
taken then and the caller moves to the next prefix). -/
def rewriteOne (xml proxyUrl : List Char) (p : List Char) :
    Option (List Char) :=
  match firstIdx (addrStartTag p) xml with
  | none => none
  | some start =>
    match firstIdx (addrEndTag p) (xml.drop start) with
    | none => none
    | some e =>
      some (xml.take (start + (addrStartTag p).length) ++ proxyUrl
        ++ xml.drop (start + e))

/-- `EventsService::rewrite_subscription_ref` (events.rs 472-494): try the
prefixes `wsa5:`, `wsa:`, `` in that order and rewrite at most the first
success, then `break`. -/
def rewrite_subscription_ref (xml proxyUrl : List Char) : List Char :=
  match rewriteOne xml proxyUrl ("wsa5:").toList with
  | some r => r
  | none =>
    match rewriteOne xml proxyUrl ("wsa:").toList with
    | some r => r
    | none =>
      match rewriteOne xml proxyUrl ([] : List Char) with
      | some r => r
      | none => xml

/-- A prefix-table entry is stable for a document when its
`add_missing_namespaces` loop iteration leaves the document unchanged. -/
def nsStable (xml : List Char) (pr : List Char × List Char) : Prop :=
  nsStep xml pr = xml

/-! ## The event streams of the concrete documents used below

`testEnvelopeEvents` is the quick-xml event stream of the repository's own
unit-test document (soap.rs `test_parse_simple_soap`):

  `<?xml version="1.0" encoding="UTF-8"?>`
  `<SOAP-ENV:Envelope xmlns:SOAP-ENV="http://www.w3.org/2003/05/soap-envelope">`
  `  <SOAP-ENV:Body>`
  `    <GetDeviceInformation xmlns="http://www.onvif.org/ver10/device/wsdl"/>`
  `  </SOAP-ENV:Body>`
  `</SOAP-ENV:Envelope>`

(the declaration yields a `Decl` event that `parse` ignores and all
inter-tag text is whitespace, trimmed away by `trim_text(true)`).
`testEnvelopeUnprefixedEvents` is the same document with unprefixed
`Envelope`/`Body` tags, so that the top-level name comparisons succeed and
the run exercises `parse_body` on the self-closing action element. -/

def testEnvelopeEvents : List XEvent := [
  XEvent.start "SOAP-ENV:Envelope"
    [("xmlns:SOAP-ENV", "http://www.w3.org/2003/05/soap-envelope")]
    "SOAP-ENV:Envelope xmlns:SOAP-ENV=\"http://www.w3.org/2003/05/soap-envelope\"",
  XEvent.start "SOAP-ENV:Body" [] "SOAP-ENV:Body",
  XEvent.empty "GetDeviceInformation"
    [("xmlns", "http://www.onvif.org/ver10/device/wsdl")]
    "GetDeviceInformation xmlns=\"http://www.onvif.org/ver10/device/wsdl\"",
  XEvent.endE "SOAP-ENV:Body",
  XEvent.endE "SOAP-ENV:Envelope"]

def testEnvelopeUnprefixedEvents : List XEvent := [
  XEvent.start "Envelope"
    [("xmlns:SOAP-ENV", "http://www.w3.org/2003/05/soap-envelope")]
    "Envelope xmlns:SOAP-ENV=\"http://www.w3.org/2003/05/soap-envelope\"",
  XEvent.start "Body" [] "Body",
  XEvent.empty "GetDeviceInformation"
    [("xmlns", "http://www.onvif.org/ver10/device/wsdl")]
    "GetDeviceInformation xmlns=\"http://www.onvif.org/ver10/device/wsdl\"",
  XEvent.endE "Body",
  XEvent.endE "Envelope"]

/-- A document with two Address elements: a `wsa:`-prefixed one first in
document order and a `wsa5:`-prefixed one after it. -/
def twoAddressDoc : List Char :=
  ("<r><wsa:Address>http://cam/one</wsa:Address><wsa5:Address>http://cam/two</wsa5:Address></r>").toList

/-- What `rewrite_subscription_ref` produces on `twoAddressDoc`: the
`wsa5:` element (first in prefix-trial order, though second in the
document) gets the proxy URL; the `wsa:` element keeps the camera URL. -/
def twoAddressExpected : List Char :=
  ("<r><wsa:Address>http://cam/one</wsa:Address><wsa5:Address>http://proxy/sub/1</wsa5:Address></r>").toList

/-! ## Supporting lemmas -/

theorem trimCacheAux_le {fuel : Nat} {c : List CachedEvent}
    (h : c.length ≤ 100 + fuel) : (trimCacheAux fuel c).length ≤ 100 := by
  induction fuel generalizing c with
  | zero => simpa [trimCacheAux] using h
  | succ n ih =>
    unfold trimCacheAux
    by_cases hc : c.length > 100
    · simp only [hc, if_true]
      apply ih
      have := List.length_tail c
      omega
    · simp only [hc, if_false]
      omega

theorem trimCacheAux_id {fuel : Nat} {c : List CachedEvent}
    (h : c.length ≤ 100) : trimCacheAux fuel c = c := by
  cases fuel with
  | zero => rfl
  | succ n =>
    unfold trimCacheAux
    have : ¬ c.length > 100 := by omega
    simp [this]

theorem trimCache_le (c : List CachedEvent) : (trimCache c).length ≤ 100 :=
  trimCacheAux_le (by omega)

/-- The `Err` arm of the state-change poll loop body never touches the
cache or the remembered state. -/
theorem pollStep_err (cid : String) (msg : String) (now : Nat) (nowStr : String)
    (s : PollerState) :
    (pollStep cid (Except.error msg) now nowStr s).cache = s.cache ∧
    (pollStep cid (Except.error msg) now nowStr s).lastMotion = s.lastMotion := by
  simp [pollStep]

/-- After one successful observation step the remembered state equals the
observation. -/
theorem pollStep_lastMotion (cid : String) (m : Bool) (now : Nat)
    (nowStr : String) (s : PollerState) :
    (pollStep cid (Except.ok m) now nowStr s).lastMotion = some m := by
  unfold pollStep
  by_cases h : s.lastMotion = some m <;> simp [h]

/-- A successful single `rewriteOne` replaces one contiguous span: the
output keeps a prefix and a suffix of the input verbatim around the
injected proxy URL. -/
theorem rewriteOne_shape {xml u p r : List Char}
    (h : rewriteOne xml u p = some r) :
    ∃ i j, j ≤ xml.length ∧ r = xml.take i ++ u ++ xml.drop j := by
  unfold rewriteOne at h
  cases hs : firstIdx (addrStartTag p) xml with
  | none => rw [hs] at h; simp at h
  | some start =>
    simp only [hs] at h
    cases he : firstIdx (addrEndTag p) (xml.drop start) with
    | none =>
      simp only [he] at h
      exact Option.noConfusion h
    | some e =>
      simp only [he, Option.some.injEq] at h
      refine ⟨start + (addrStartTag p).length, start + e, ?_, h.symm⟩
      have h1 := firstIdx_le_length he
      have h2 := firstIdx_idx_le hs
      have h3 : (xml.drop start).length = xml.length - start := List.length_drop start xml
      omega

/-- The machine `runParse` ends in an error whenever the body slot is still
empty and no element named `Body` remains in the stream, provided control
is not already inside `parse_body`. -/
theorem runParse_noBody :
    ∀ (evts : List XEvent) (st : PSt) (m : PMode),
      st.body = none →
      hasBodyElem evts = false →
      (m = PMode.top ∨ ∃ d acc, m = PMode.hdr d acc) →
      ∃ msg, runParse m st evts = Except.error msg := by
  intro evts
  induction evts with
  | nil =>
    intro st m hb _ hm
    rcases hm with rfl | ⟨d, acc, rfl⟩
    · exact ⟨"SOAP Body not found", by simp [runParse, finalizeEnv, hb]⟩
    · exact ⟨"SOAP Body not found", by simp [runParse, finalizeEnv, hb]⟩
  | cons ev rest ih =>
    intro st m hb hn hm
    have hn' : hasBodyElem rest = false := by
      simp [hasBodyElem, List.any_cons] at hn ⊢
      exact hn.2
    have hev : (match ev with
        | XEvent.start q _ _ => localName q = "Body"
        | XEvent.empty q _ _ => localName q = "Body"
        | _ => False) → False := by
      intro hx
      simp [hasBodyElem, List.any_cons] at hn
      rcases ev with q | q | q | s | msg <;> simp at hx <;> simp [hx] at hn
    rcases hm with rfl | ⟨d, acc, rfl⟩
    · rcases ev with ⟨q, attrs, raw⟩ | ⟨q, attrs, raw⟩ | q | s | msg
      · by_cases h1 : q = "Envelope"
        · subst h1
          simpa [runParse] using
            ih { st with namespaces :=
                  st.namespaces ++ attrs.filter (fun kv => startsWithS kv.1 "xmlns") }
              .top hb hn' (Or.inl rfl)
        · by_cases h2 : q = "Header"
          · subst h2
            simpa [runParse, h1] using ih _ (.hdr 1 "") hb hn' (Or.inr ⟨1, "", rfl⟩)
          · by_cases h3 : q = "Body"
            · exfalso
              apply hev
              subst h3
              simp [localName, afterColon]
            · simpa [runParse, h1, h2, h3] using ih _ .top hb hn' (Or.inl rfl)
      · simpa [runParse] using ih _ .top hb hn' (Or.inl rfl)
      · simpa [runParse] using ih _ .top hb hn' (Or.inl rfl)
      · simpa [runParse] using ih _ .top hb hn' (Or.inl rfl)
      · exact ⟨"XML parsing error: " ++ msg, by simp [runParse]⟩
    · rcases ev with ⟨q, attrs, raw⟩ | ⟨q, attrs, raw⟩ | q | s | msg
      · simpa [runParse] using ih _ (.hdr (d + 1) _) hb hn' (Or.inr ⟨_, _, rfl⟩)
      · simpa [runParse] using ih _ (.hdr d acc) hb hn' (Or.inr ⟨_, _, rfl⟩)
      · by_cases hd : d - 1 = 0
        · simpa [runParse, hd] using
            ih { st with header := some ⟨none, acc⟩ } .top hb hn' (Or.inl rfl)
        · simpa [runParse, hd] using ih _ (.hdr (d - 1) _) hb hn' (Or.inr ⟨_, _, rfl⟩)
      · simpa [runParse] using ih _ (.hdr d _) hb hn' (Or.inr ⟨_, _, rfl⟩)
      · exact ⟨"Header parsing error: " ++ msg, by simp [runParse]⟩

/-! ### Occurrence bookkeeping for the namespace-repair idempotence proof

`add_namespace` inserts the declaration text at the position of a `>`
character.  The lemmas below track how substring occurrences behave across
such an insertion: an occurrence of a `>`-free pattern survives the
insertion, and no new occurrence of a pattern free of `>` and of space can
appear unless the pattern occurs inside the inserted text itself (the text
starts with a space and is inserted immediately before a `>`). -/

theorem appendPreCases {pat b a : List Char} (h : pat <+: b ++ a) :
    pat <+: b ∨ ∃ p₂, pat = b ++ p₂ ∧ p₂ <+: a := by
  by_cases hl : pat.length ≤ b.length
  · exact Or.inl (List.prefix_of_prefix_length_le h (List.prefix_append b a) hl)
  · push_neg at hl
    have hb : b <+: pat :=
      List.prefix_of_prefix_length_le (List.prefix_append b a) h (le_of_lt hl)
    obtain ⟨p₂, rfl⟩ := hb
    refine Or.inr ⟨p₂, rfl, ?_⟩
    obtain ⟨t, ht⟩ := h
    rw [List.append_assoc] at ht
    exact ⟨t, List.append_cancel_left ht⟩

theorem appendInfCases {pat b a : List Char} (h : pat <:+: b ++ a) :
    pat <:+: b ∨ pat <:+: a ∨ ∃ p₁ p₂, pat = p₁ ++ p₂ ∧ p₂ ≠ [] ∧ p₂ <+: a := by
  induction b with
  | nil => exact Or.inr (Or.inl (by simpa using h))
  | cons c b' ih =>
    rw [List.cons_append] at h
    rcases List.infix_cons_iff.mp h with hpre | hinf
    · rcases appendPreCases (b := c :: b') (a := a) hpre with h1 | ⟨p₂, rfl, hp₂⟩
      · exact Or.inl h1.isInfix
      · cases hp2e : p₂ with
        | nil =>
          subst hp2e
          exact Or.inl (by simp)
        | cons x xs =>
          subst hp2e
          exact Or.inr (Or.inr ⟨c :: b', x :: xs, rfl, by simp, hp₂⟩)
    · rcases ih hinf with h1 | h1 | h1
      · exact Or.inl (List.infix_cons h1)
      · exact Or.inr (Or.inl h1)
      · exact Or.inr (Or.inr h1)

theorem infExtendRight {pat b : List Char} (z : List Char) (h : pat <:+: b) :
    pat <:+: b ++ z := by
  obtain ⟨s, t, hst⟩ := h
  exact ⟨s, t ++ z, by rw [← hst]; simp [List.append_assoc]⟩

theorem infExtendLeft {pat a : List Char} (z : List Char) (h : pat <:+: a) :
    pat <:+: z ++ a := by
  obtain ⟨s, t, hst⟩ := h
  exact ⟨z ++ s, t, by rw [← hst]; simp [List.append_assoc]⟩

/-- The head of a nonempty prefix of `c :: l` is `c`. -/
theorem preHeadEq {x c : Char} {xs l : List Char} (h : (x :: xs) <+: c :: l) :
    x = c := by
  obtain ⟨t, ht⟩ := h
  exact (List.cons.injEq _ _ _ _ ▸ ht).1

/-- An occurrence of a `>`-free pattern survives an insertion placed
immediately before a `>`. -/
theorem infInsert {pat b a ins : List Char} (h : pat <:+: b ++ a)
    (hgt : '>' ∉ pat) (ha : ∃ a', a = '>' :: a') : pat <:+: b ++ ins ++ a := by
  rcases appendInfCases h with h1 | h1 | ⟨p₁, p₂, rfl, hne, hpa⟩
  · simpa [List.append_assoc] using infExtendRight (ins ++ a) h1
  · simpa [List.append_assoc] using infExtendLeft (b ++ ins) h1
  · exfalso
    obtain ⟨a', rfl⟩ := ha
    cases p₂ with
    | nil => exact hne rfl
    | cons x xs =>
      have hx : x = '>' := preHeadEq hpa
      exact hgt (by subst hx; simp)

/-- Conversely, across an insertion of a space-headed text immediately
before a `>`, every occurrence of a pattern free of `>` and of space that
does not lie inside the inserted text was already present. -/
theorem infUninsert {pat b a ins : List Char} (h : pat <:+: b ++ ins ++ a)
    (hgt : '>' ∉ pat) (hsp : ' ' ∉ pat) (hni : ¬ pat <:+: ins)
    (hins : ∃ i', ins = ' ' :: i') (ha : ∃ a', a = '>' :: a') :
    pat <:+: b ++ a := by
  have h' : pat <:+: b ++ (ins ++ a) := by simpa [List.append_assoc] using h
  rcases appendInfCases h' with h1 | h1 | ⟨p₁, p₂, rfl, hne, hpa⟩
  · exact infExtendRight a h1
  · rcases appendInfCases h1 with h2 | h2 | ⟨q₁, q₂, rfl, hqe, hqa⟩
    · exact absurd h2 hni
    · exact infExtendLeft b h2
    · exfalso
      obtain ⟨a', rfl⟩ := ha
      cases q₂ with
      | nil => exact hqe rfl
      | cons x xs =>
        have hx : x = '>' := preHeadEq hqa
        exact hgt (by subst hx; simp)
  · exfalso
    obtain ⟨i', rfl⟩ := hins
    cases p₂ with
    | nil => exact hne rfl
    | cons x xs =>
      have hx : x = ' ' := preHeadEq (by simpa [List.append_assoc] using hpa)
      exact hsp (by subst hx; simp)

/-- When `add_namespace`'s finds fail, it is the identity, whatever
namespace it was asked to add. -/
theorem add_namespace_id {xml : List Char} (h : envFindsGt xml = false)
    (p uri : List Char) : add_namespace xml p uri = xml := by
  cases hf : firstIdx envL xml with
  | none => unfold add_namespace; simp only [hf]
  | some pos =>
    cases hg : firstIdx ['>'] (xml.drop pos) with
    | none => unfold add_namespace; simp only [hf, hg]
    | some e =>
      exfalso
      unfold envFindsGt at h
      simp only [hf, hg] at h
      simp at h

/-- When `add_namespace`'s finds succeed, the result splits the document at
a `>` character and inserts the declaration there. -/
theorem add_namespace_insert {xml : List Char} (h : envFindsGt xml = true)
    (p uri : List Char) :
    ∃ b a', xml = b ++ '>' :: a' ∧
      add_namespace xml p uri = b ++ nsDecl p uri ++ '>' :: a' := by
  unfold envFindsGt at h
  cases hf : firstIdx envL xml with
  | none =>
    simp only [hf] at h
    exact Bool.noConfusion h
  | some pos =>
    simp only [hf] at h
    cases hg : firstIdx ['>'] (xml.drop pos) with
    | none => simp only [hg] at h; simp at h
    | some e =>
      have hpre := List.isPrefixOf_iff_prefix.mp (firstIdx_sound hg)
      rw [List.drop_drop] at hpre
      obtain ⟨t, ht⟩ := hpre
      have hdrop : xml.drop (pos + e) = '>' :: t := by
        rw [← ht]; rfl
      refine ⟨xml.take (pos + e), t, ?_, ?_⟩
      · conv_lhs => rw [← List.take_append_drop (pos + e) xml]
        rw [hdrop]
      · unfold add_namespace
        simp only [hf, hg]
        rw [hdrop]

/-- The declaration text is never empty. -/
theorem nsDecl_ne_nil (p uri : List Char) : nsDecl p uri ≠ [] := by
  simp [nsDecl]

/-- Decidable character facts about the concrete prefix table: neither
search pattern contains `>` or a space, the inserted declaration contains
no `<` and starts with a space, and it contains its own `xmlns:p=`
pattern. -/
theorem nsTable_facts : ∀ pr ∈ nsTable,
    ('>' ∉ xmlnsPat pr.1) ∧ (' ' ∉ xmlnsPat pr.1) ∧
    ('>' ∉ tagPat pr.1) ∧ (' ' ∉ tagPat pr.1) ∧
    ('<' ∉ nsDecl pr.1 pr.2) ∧ ((nsDecl pr.1 pr.2).head? = some ' ') ∧
    containsS (nsDecl pr.1 pr.2) (xmlnsPat pr.1) = true := by decide

theorem nsDecl_space_head {pr : List Char × List Char} (hpr : pr ∈ nsTable) :
    ∃ i', nsDecl pr.1 pr.2 = ' ' :: i' := by
  have h := (nsTable_facts pr hpr).2.2.2.2.2.1
  cases hd : nsDecl pr.1 pr.2 with
  | nil => rw [hd] at h; simp at h
  | cons x xs =>
    rw [hd] at h
    simp at h
    exact ⟨xs, by rw [h]⟩

/-- A stable prefix-table entry remains stable across another entry's
step. -/
theorem nsStable_preserved {xml : List Char} {pr q : List Char × List Char}
    (hpr : pr ∈ nsTable) (hq : q ∈ nsTable) (hs : nsStable xml pr) :
    nsStable (nsStep xml q) pr := by
  by_cases hc : (!containsS xml (xmlnsPat q.1) && containsS xml (tagPat q.1)) = true
  · by_cases he : envFindsGt xml = true
    · obtain ⟨b, a', hxml, hins⟩ := add_namespace_insert he q.1 q.2
      have hstep : nsStep xml q = b ++ nsDecl q.1 q.2 ++ '>' :: a' := by
        unfold nsStep
        rw [if_pos hc, hins]
      -- stability of `pr` at `xml` forces its condition to be false there
      have hcond : containsS xml (xmlnsPat pr.1) = true ∨
          containsS xml (tagPat pr.1) = false := by
        by_contra hx
        push_neg at hx
        obtain ⟨hx1, hx2⟩ := hx
        have hx2' : containsS xml (tagPat pr.1) = true := by
          cases h : containsS xml (tagPat pr.1)
          · exact absurd h hx2
          · rfl
        have hx1' : containsS xml (xmlnsPat pr.1) = false := by
          cases h : containsS xml (xmlnsPat pr.1)
          · rfl
          · exact absurd h hx1
        have hcpr : (!containsS xml (xmlnsPat pr.1) && containsS xml (tagPat pr.1)) = true := by
          rw [hx1', hx2']; rfl
        obtain ⟨b2, a2, hxml2, hins2⟩ := add_namespace_insert he pr.1 pr.2
        have : nsStep xml pr = b2 ++ nsDecl pr.1 pr.2 ++ '>' :: a2 := by
          unfold nsStep
          rw [if_pos hcpr, hins2]
        have hlen := congrArg List.length (hs.symm.trans this)
        rw [hxml2] at hlen
        simp at hlen
        exact absurd hlen (by simpa using nsDecl_ne_nil pr.1 pr.2)
      rcases hcond with h1 | h1
      · -- the xmlns pattern is present and survives the insertion
        have hx : xmlnsPat pr.1 <:+: b ++ '>' :: a' := by
          rw [← hxml]; exact containsS_iff.mp h1
        have hy : xmlnsPat pr.1 <:+: b ++ nsDecl q.1 q.2 ++ '>' :: a' :=
          infInsert hx ((nsTable_facts pr hpr).1) ⟨a', rfl⟩
        have hcont : containsS (b ++ nsDecl q.1 q.2 ++ '>' :: a') (xmlnsPat pr.1) = true :=
          containsS_iff.mpr hy
        unfold nsStable
        rw [hstep]
        unfold nsStep
        rw [hcont]
        simp
      · -- the tag pattern is absent and cannot be created by the insertion
        have hy : containsS (b ++ nsDecl q.1 q.2 ++ '>' :: a') (tagPat pr.1) = false := by
          rw [containsS_false_iff]
          intro hin
          have hni : ¬ tagPat pr.1 <:+: nsDecl q.1 q.2 := by
            intro hsub
            have : '<' ∈ nsDecl q.1 q.2 := hsub.subset (by simp [tagPat])
            exact absurd this ((nsTable_facts q hq).2.2.2.2.1)
          have hback := infUninsert hin ((nsTable_facts pr hpr).2.2.1)
            ((nsTable_facts pr hpr).2.2.2.1) hni (nsDecl_space_head hq) ⟨a', rfl⟩
          rw [← hxml] at hback
          exact absurd (containsS_iff.mpr hback) (by rw [h1]; simp)
        unfold nsStable
        rw [hstep]
        unfold nsStep
        rw [hy]
        simp
    · have he' : envFindsGt xml = false := by
        cases h : envFindsGt xml
        · rfl
        · exact absurd h he
      have : nsStep xml q = xml := by
        unfold nsStep
        rw [if_pos hc]
        exact add_namespace_id he' q.1 q.2
      rw [this]
      exact hs
  · have : nsStep xml q = xml := by
      unfold nsStep
      rw [if_neg hc]
    rw [this]
    exact hs

/-- After its own step, a prefix-table entry is stable. -/
theorem nsStable_self {xml : List Char} {pr : List Char × List Char}
    (hpr : pr ∈ nsTable) : nsStable (nsStep xml pr) pr := by
  by_cases hc : (!containsS xml (xmlnsPat pr.1) && containsS xml (tagPat pr.1)) = true
  · by_cases he : envFindsGt xml = true
    · obtain ⟨b, a', hxml, hins⟩ := add_namespace_insert he pr.1 pr.2
      have hstep : nsStep xml pr = b ++ nsDecl pr.1 pr.2 ++ '>' :: a' := by
        unfold nsStep
        rw [if_pos hc, hins]
      have hdecl : xmlnsPat pr.1 <:+: nsDecl pr.1 pr.2 :=
        containsS_iff.mp ((nsTable_facts pr hpr).2.2.2.2.2.2)
      have hy : xmlnsPat pr.1 <:+: b ++ nsDecl pr.1 pr.2 ++ '>' :: a' := by
        have h1 := infExtendLeft b (infExtendRight ('>' :: a') hdecl)
        simpa [List.append_assoc] using h1
      have hcy : containsS (b ++ nsDecl pr.1 pr.2 ++ '>' :: a') (xmlnsPat pr.1) = true :=
        containsS_iff.mpr hy
      unfold nsStable
      rw [hstep]
      unfold nsStep
      rw [hcy]
      simp
    · have he' : envFindsGt xml = false := by
        cases h : envFindsGt xml
        · rfl
        · exact absurd h he
      have hid : nsStep xml pr = xml := by
        unfold nsStep
        rw [if_pos hc]
        exact add_namespace_id he' pr.1 pr.2
      unfold nsStable
      rw [hid, hid]
  · have hid : nsStep xml pr = xml := by
      unfold nsStep
      rw [if_neg hc]
    unfold nsStable
    rw [hid, hid]

theorem foldl_nsStep_stable {l : List (List Char × List Char)}
    {xml : List Char} (h : ∀ pr ∈ l, nsStable xml pr) :
    List.foldl nsStep xml l = xml := by
  induction l with
  | nil => rfl
  | cons pr rest ih =>
    simp only [List.foldl_cons]
    rw [h pr (by simp)]
    exact ih (fun q hq => h q (by simp [hq]))

theorem nsStable_after_fold {l : List (List Char × List Char)}
    {xml : List Char} {pr : List Char × List Char} (hpr : pr ∈ nsTable)
    (hl : ∀ q ∈ l, q ∈ nsTable) (hs : nsStable xml pr) :
    nsStable (List.foldl nsStep xml l) pr := by
  induction l generalizing xml with
  | nil => exact hs
  | cons q rest ih =>
    simp only [List.foldl_cons]
    exact ih (fun r hr => hl r (by simp [hr]))
      (nsStable_preserved hpr (hl q (by simp)) hs)

theorem all_stable_after_fold :
    ∀ (l : List (List Char × List Char)) (xml : List Char),
      (∀ q ∈ l, q ∈ nsTable) →
      ∀ pr ∈ l, nsStable (List.foldl nsStep xml l) pr := by
  intro l
  induction l with
  | nil => intro xml _ pr hpr; simp at hpr
  | cons q rest ih =>
    intro xml hl pr hpr
    simp only [List.foldl_cons]
    rcases List.mem_cons.mp hpr with rfl | hin
    · exact nsStable_after_fold (hl pr (by simp))
        (fun r hr => hl r (by simp [hr])) (nsStable_self (hl pr (by simp)))
    · exact ih (nsStep xml q) (fun r hr => hl r (by simp [hr])) pr hin

/-! ## Claim theorems -/

/-- Claim C1: the claim states that for every valid SOAP envelope whose
Body's first child element is `<Foo>`, `<ns:Foo>` or `<ns:Foo/>`,
`SoapEnvelope::parse` returns an envelope with `body.action == "Foo"`.  The
code refutes this on its own unit-test document: with the prefixed
`SOAP-ENV:` tags the top-level loop (which compares full qualified names
against `"Envelope"`/`"Body"`) never enters `parse_body`, so parsing fails
with `SOAP Body not found`; and even with unprefixed tags the self-closing
action element arrives as `Event::Empty`, which `parse_body` ignores, so
the action comes back `""` instead of `"GetDeviceInformation"`. -/
theorem claim_C1_code_eval :
    parse testEnvelopeEvents = Except.error "SOAP Body not found" ∧
    parse testEnvelopeUnprefixedEvents = Except.ok
      { header := none,
        body := { action := "", content := "", raw_xml := "" },
        namespaces :=
          [("xmlns:SOAP-ENV", "http://www.w3.org/2003/05/soap-envelope")] } := by
  constructor
  · rfl
  · rfl

/-- Claim C2: `SoapEnvelope::parse` on a document with no `<Body>` element
returns a `ParseError` (an `Err`), and on every input it returns either a
fully-populated envelope (`Ok`, whose body field is always present by
construction) or an error - never a partial result. -/
theorem claim_C2_parse_no_body (evts : List XEvent) :
    (hasBodyElem evts = false → ∃ msg, parse evts = Except.error msg) ∧
    ((∃ env, parse evts = Except.ok env) ∨ (∃ msg, parse evts = Except.error msg)) := by
  constructor
  · intro h
    exact runParse_noBody evts ⟨[], none, none⟩ .top rfl h (Or.inl rfl)
  · cases h : parse evts with
    | ok env => exact Or.inl ⟨env, rfl⟩
    | error msg => exact Or.inr ⟨msg, rfl⟩

theorem claim_C2_witness :
    hasBodyElem [XEvent.start "Envelope" [] "Envelope"] = false ∧
    (∃ msg, parse [XEvent.start "Envelope" [] "Envelope"] = Except.error msg) :=
  ⟨by decide,
   (claim_C2_parse_no_body [XEvent.start "Envelope" [] "Envelope"]).1 (by decide)⟩

/-- Claim C3: the WS-Security password digest is
`Base64(SHA1(nonceBytes ++ createdBytes ++ passwordBytes))`: the three
byte strings are hashed as one separator-free concatenation in exactly that
order (the three incremental `update` calls of `generate_header` hash the
same message), for every nonce, created timestamp and password - in
particular for the fixed `created = "2024-01-01T00:00:00.000Z"` and
password `"password"`. -/
theorem claim_C3_digest (nonceBytes : List Nat) (created password : String) :
    passwordDigest nonceBytes created password =
      specPasswordDigest nonceBytes created password := by
  simp [passwordDigest, specPasswordDigest, sha1HasherFinalize,
    sha1HasherUpdate, sha1HasherNew, List.append_assoc]

/-- Claim C5: a poller append never leaves more than 100 cached events, and
appending to a full cache of 100 drops exactly the oldest entry: the result
is the old cache minus its front plus the new event at the back. -/
theorem claim_C5_cache_bound (c : List CachedEvent) (e : CachedEvent) :
    (cacheAppend c e).length ≤ 100 ∧
    (c.length = 100 → cacheAppend c e = c.tail ++ [e]) := by
  constructor
  · exact trimCache_le (c ++ [e])
  · intro hc
    cases c with
    | nil => simp at hc
    | cons a t =>
      have ht : t.length = 99 := by simpa using hc
      unfold cacheAppend trimCache
      have hlen : ((a :: t) ++ [e]).length = 101 := by simp [ht]
      rw [hlen]
      unfold trimCacheAux
      have h101 : ((a :: t) ++ [e]).length > 100 := by omega
      simp only [h101, if_true]
      have : ((a :: t) ++ [e]).tail = t ++ [e] := by simp
      rw [this]
      have : (t ++ [e]).length ≤ 100 := by simp [ht]
      simp [trimCacheAux_id this]

theorem claim_C5_witness :
    (cacheAppend (List.replicate 100 ⟨"m", 0⟩) ⟨"n", 1⟩).length ≤ 100 ∧
    cacheAppend (List.replicate 100 ⟨"m", 0⟩) ⟨"n", 1⟩ =
      (List.replicate 100 (⟨"m", 0⟩ : CachedEvent)).tail ++ [⟨"n", 1⟩] :=
  ⟨(claim_C5_cache_bound (List.replicate 100 ⟨"m", 0⟩) ⟨"n", 1⟩).1,
   (claim_C5_cache_bound (List.replicate 100 ⟨"m", 0⟩) ⟨"n", 1⟩).2 (by simp)⟩

/-- Claim C6: the background poller is edge-triggered.  A step whose
observation equals the remembered state appends nothing; a step observing a
change appends exactly one motion notification; hence two consecutive polls
that both report motion leave the cache of the second step identical to the
first step's cache - one cached event for the transition, none for the
repeat. -/
theorem claim_C6_edge_triggered (cid : String) (m : Bool) (t1 t2 : Nat)
    (f1 f2 : String) (s : PollerState) :
    (pollStep cid (Except.ok m) t2 f2 (pollStep cid (Except.ok m) t1 f1 s)).cache =
      (pollStep cid (Except.ok m) t1 f1 s).cache ∧
    (s.lastMotion = some m → (pollStep cid (Except.ok m) t1 f1 s).cache = s.cache) ∧
    (s.lastMotion ≠ some m → (pollStep cid (Except.ok m) t1 f1 s).cache =
      cacheAppend s.cache ⟨generate_motion_event cid m f1, t1⟩) := by
  refine ⟨?_, ?_, ?_⟩
  · have h := pollStep_lastMotion cid m t1 f1 s
    unfold pollStep
    by_cases hs : s.lastMotion = some m <;> simp [hs]
  · intro h; simp [pollStep, h]
  · intro h; simp [pollStep, h]

theorem claim_C6_witness :
    (pollStep "cam" (Except.ok true) 2 "t2"
        (pollStep "cam" (Except.ok true) 1 "t1" ⟨none, [], 0⟩)).cache =
      (pollStep "cam" (Except.ok true) 1 "t1" ⟨none, [], 0⟩).cache ∧
    (pollStep "cam" (Except.ok true) 1 "t1" ⟨none, [], 0⟩).cache =
      cacheAppend [] ⟨generate_motion_event "cam" true "t1", 1⟩ :=
  ⟨(claim_C6_edge_triggered "cam" true 1 2 "t1" "t2" ⟨none, [], 0⟩).1,
   (claim_C6_edge_triggered "cam" true 1 2 "t1" "t2" ⟨none, [], 0⟩).2.2 (by simp)⟩

/-- Claim C8: `renew_subscription` returns the forwarded camera response
unchanged regardless of the table; when the reference is present it sets
exactly that subscription's expiry to now + 600 and leaves every other
entry untouched; when the reference is absent the table is left completely
unchanged. -/
theorem claim_C8_renew (table : String → Option Subscription) (ref : String)
    (now : Nat) (resp : String) (s0 : Subscription) :
    ((renew_subscription table (Except.ok resp) ref now).1 = Except.ok resp) ∧
    (table ref = some s0 →
      (renew_subscription table (Except.ok resp) ref now).2 ref =
        some { s0 with expires_at := now + 600 } ∧
      ∀ k, k ≠ ref →
        (renew_subscription table (Except.ok resp) ref now).2 k = table k) ∧
    (table ref = none →
      (renew_subscription table (Except.ok resp) ref now).2 = table) := by
  refine ⟨rfl, fun h => ⟨?_, fun k hk => ?_⟩, fun h => ?_⟩
  · simp [renew_subscription, renewUpdate, h]
  · simp [renew_subscription, renewUpdate, hk]
  · funext k
    by_cases hk : k = ref
    · subst hk; simp [renew_subscription, renewUpdate, h]
    · simp [renew_subscription, renewUpdate, hk]

theorem claim_C8_witness :
    ((renew_subscription
        (fun k => if k = "ref1" then some ⟨"ref1", "cam1", "u", 0, 600, [], 0⟩ else none)
        (Except.ok "<resp/>") "ref1" 1000).1 = Except.ok "<resp/>") ∧
    ((renew_subscription
        (fun k => if k = "ref1" then some ⟨"ref1", "cam1", "u", 0, 600, [], 0⟩ else none)
        (Except.ok "<resp/>") "ref1" 1000).2 "ref1" =
      some ⟨"ref1", "cam1", "u", 0, 1000 + 600, [], 0⟩) ∧
    ((renew_subscription
        (fun k => if k = "ref1" then some ⟨"ref1", "cam1", "u", 0, 600, [], 0⟩ else none)
        (Except.ok "<resp/>") "absent" 1000).2 =
      (fun k => if k = "ref1" then some ⟨"ref1", "cam1", "u", 0, 600, [], 0⟩ else none)) :=
  ⟨(claim_C8_renew
      (fun k => if k = "ref1" then some ⟨"ref1", "cam1", "u", 0, 600, [], 0⟩ else none)
      "ref1" 1000 "<resp/>" ⟨"ref1", "cam1", "u", 0, 600, [], 0⟩).1,
   ((claim_C8_renew
      (fun k => if k = "ref1" then some ⟨"ref1", "cam1", "u", 0, 600, [], 0⟩ else none)
      "ref1" 1000 "<resp/>" ⟨"ref1", "cam1", "u", 0, 600, [], 0⟩).2.1 (by decide)).1,
   (claim_C8_renew
      (fun k => if k = "ref1" then some ⟨"ref1", "cam1", "u", 0, 600, [], 0⟩ else none)
      "absent" 1000 "<resp/>" ⟨"ref1", "cam1", "u", 0, 600, [], 0⟩).2.2 (by decide)⟩

/-- Claim C4: the claim states that any occurrence of
`tns1:RuleEngine/MyRuleDetector/PeopleDetect` becomes
`tns1:RuleEngine/CellMotionDetector/Motion` under `translate_smart_events`.
The code refutes this on its own unit-test input: the mapping table is
applied in order and its first entry rewrites the bare `PeopleDetect`
substring to `Motion` before the full-topic entry can match, so the output
is `tns1:RuleEngine/MyRuleDetector/Motion` and never contains
`CellMotionDetector/Motion` (the repository's `test_translate_smart_events`
asserts that it does). -/
theorem claim_C4_code_eval :
    containsS (("<tns1:RuleEngine/MyRuleDetector/PeopleDetect>").toList)
      (("tns1:RuleEngine/MyRuleDetector/PeopleDetect").toList) = true ∧
    translate_smart_events (("<tns1:RuleEngine/MyRuleDetector/PeopleDetect>").toList)
      = ("<tns1:RuleEngine/MyRuleDetector/Motion>").toList ∧
    containsS
      (translate_smart_events (("<tns1:RuleEngine/MyRuleDetector/PeopleDetect>").toList))
      (("tns1:RuleEngine/CellMotionDetector/Motion").toList) = false := by
  refine ⟨by decide, by decide, by decide⟩

/-- Claim C7: `add_missing_namespaces` is idempotent: applying the
namespace-repair quirk twice to any document yields the same string as
applying it once (in particular a second pass can never introduce a
duplicate `xmlns:tt` declaration, since it changes nothing at all). -/
theorem claim_C7_idempotent (xml : List Char) :
    add_missing_namespaces (add_missing_namespaces xml) =
      add_missing_namespaces xml := by
  unfold add_missing_namespaces
  apply foldl_nsStep_stable
  intro pr hpr
  exact all_stable_after_fold nsTable xml (fun q hq => hq) pr hpr

/-- Claim C9: `ResponseTranslator::translate` is total over its error type:
every input produces `Ok`.  Unknown camera models return the input
unchanged, and unknown quirk names are skipped (the quirk dispatcher leaves
the string untouched for them). -/
theorem claim_C9_translate_total (xml : List Char) (cm : String)
    (quirks : List String) :
    (∃ out, translate xml cm quirks = Except.ok out ∧ (cm ≠ "reolink" → out = xml)) ∧
    (∀ q, q ≠ "fix_device_info_namespace" → q ≠ "normalize_media_profiles" →
      q ≠ "translate_smart_events" → q ≠ "add_missing_namespaces" →
      quirkApply xml q = xml) := by
  constructor
  · by_cases h : cm = "reolink"
    · subst h
      exact ⟨_, rfl, fun hne => absurd rfl hne⟩
    · exact ⟨xml, by simp [translate, h], fun _ => rfl⟩
  · intro q h1 h2 h3 h4
    unfold quirkApply
    split <;> simp_all

theorem claim_C9_witness :
    (∃ out, translate (("<x/>").toList) "acme" [] = Except.ok out ∧
      (("acme" : String) ≠ "reolink" → out = ("<x/>").toList)) ∧
    quirkApply (("<x/>").toList) "bogus" = ("<x/>").toList :=
  ⟨(claim_C9_translate_total (("<x/>").toList) "acme" []).1,
   (claim_C9_translate_total (("<x/>").toList) "acme" []).2 "bogus"
     (by decide) (by decide) (by decide) (by decide)⟩

/-- Claim C10: `rewrite_subscription_ref` rewrites the content of at most
one Address element - either it returns the input unchanged, or the output
is the input with a single contiguous span replaced by the proxy URL
(everything before the matched start tag's end and everything from the
matched end tag on is kept verbatim, so every other Address element retains
the camera's original URL).  The match is chosen by trying the prefixes
`wsa5:`, `wsa:`, then none, in that order: on `twoAddressDoc` the
document-later `wsa5:` Address is rewritten and the document-earlier `wsa:`
Address keeps `http://cam/one`. -/
theorem claim_C10_rewrite :
    (∀ (xml u : List Char),
      rewrite_subscription_ref xml u = xml ∨
      ∃ i j, j ≤ xml.length ∧
        rewrite_subscription_ref xml u = xml.take i ++ u ++ xml.drop j) ∧
    rewrite_subscription_ref twoAddressDoc (("http://proxy/sub/1").toList) =
      twoAddressExpected := by
  constructor
  · intro xml u
    unfold rewrite_subscription_ref
    cases h1 : rewriteOne xml u (("wsa5:").toList) with
    | some r =>
      obtain ⟨i, j, hj, hr⟩ := rewriteOne_shape h1
      exact Or.inr ⟨i, j, hj, hr⟩
    | none =>
      cases h2 : rewriteOne xml u (("wsa:").toList) with
      | some r =>
        obtain ⟨i, j, hj, hr⟩ := rewriteOne_shape h2
        exact Or.inr ⟨i, j, hj, hr⟩
      | none =>
        cases h3 : rewriteOne xml u ([] : List Char) with
        | some r =>
          obtain ⟨i, j, hj, hr⟩ := rewriteOne_shape h3
          exact Or.inr ⟨i, j, hj, hr⟩
        | none => exact Or.inl rfl
  · decide

end OnvifProxy
